import Mathlib

/-!
# PyAmesp codec — formal model

A shallow embedding of `src/PyAmesp/amesp.py`, the bidirectional codec between
an in-memory molecular structure plus calculation parameters and the line
oriented Amesp transcript format.

Modelling conventions:

* Machine floats become `ℚ`; the fixed-point renderings the code performs
  (`%f`, the xyz writer's fixed-decimal positions) are modelled as exact
  decimal quantisation on `ℚ`.
* An *input* transcript is a list of lines, each line a list of whitespace
  separated tokens (`InLines`).  The regular expressions of the source are
  whitespace-driven, so the tokenised view is the level at which they act;
  patterns that cannot span a line (none of the relevant ones contain an
  escaped newline in a load-bearing position) are modelled per line.
* An *output* transcript is a list of recognised sections in file order
  (`OSection`); `re.findall` over the text for one banner becomes a
  `filterMap` selecting that section's occurrences in order.
* Python exceptions become `Except String`; a raised `IndexError` is the
  string `"IndexError: list index out of range"`.
* `ase` (the host structure model) is an external collaborator; its xyz
  reader/writer and unit constants are modelled at their interface.
-/

namespace PyAmesp

/-! ## Characters, digits and whitespace -/

def isWsChar (c : Char) : Bool :=
  c == ' ' || c == '\t' || c == '\n' || c == '\r'

def isDigitChar (c : Char) : Bool :=
  48 ≤ c.toNat && c.toNat ≤ 57

/-- The character for a decimal digit. -/
def digitChar (d : ℕ) : Char := Char.ofNat (48 + d)

/-- The value of a decimal digit character. -/
def digitVal (c : Char) : ℕ := c.toNat - 48

/-- Digits of `n`, most significant first, by fuelled division (the fuel
`n` itself always suffices). -/
def natCharsAux : ℕ → ℕ → List Char
  | 0, _ => []
  | _ + 1, 0 => []
  | fuel + 1, n => natCharsAux fuel (n / 10) ++ [digitChar (n % 10)]

/-- Decimal digits of `n`, most significant first, as characters.
`0` renders as `"0"` (Python `'%d' % 0`). -/
def natChars (n : ℕ) : List Char :=
  if n = 0 then ['0'] else natCharsAux n n

/-- Decimal rendering of an integer, Python `'%d'` style. -/
def intChars (z : ℤ) : List Char :=
  (if z < 0 then ['-'] else []) ++ natChars z.natAbs

def natStr (n : ℕ) : String := String.mk (natChars n)

def intStr (z : ℤ) : String := String.mk (intChars z)

/-- Numeric value of a run of digit characters (most significant first). -/
def natOfChars (cs : List Char) : ℕ :=
  Nat.ofDigits 10 (cs.reverse.map digitVal)

/-! ## Substring and prefix search (model of Python `in`, `startswith`) -/

def startsWithL : List Char → List Char → Bool
  | _, [] => true
  | [], _ :: _ => false
  | c :: cs, p :: ps => c == p && startsWithL cs ps

def containsL : List Char → List Char → Bool
  | [], pat => pat.isEmpty
  | l@(_ :: cs), pat => startsWithL l pat || containsL cs pat

def strStartsWith (s pat : String) : Bool := startsWithL s.data pat.data

def strEndsWith (s pat : String) : Bool :=
  startsWithL s.data.reverse pat.data.reverse

def strContains (s pat : String) : Bool := containsL s.data pat.data

/-- Split a string at whitespace, dropping empty pieces (Python `str.split()`). -/
def splitWsL : List Char → List Char → List String
  | [], cur => if cur.isEmpty then [] else [String.mk cur.reverse]
  | c :: cs, cur =>
    if isWsChar c then
      if cur.isEmpty then splitWsL cs [] else String.mk cur.reverse :: splitWsL cs []
    else splitWsL cs (c :: cur)

def splitWs (s : String) : List String := splitWsL s.data []

/-! ## Fixed-point rendering and float parsing

`renderFix d q` is the model of `'%.<d>f' % q`: round to `d` decimal places
and print with exactly `d` fractional digits.  `parseFloatTok` is the model
of Python `float(token)` on the plain decimal forms the codec emits. -/

/-- `q` rounded to `d` decimal places, as a rational. -/
def qfix (d : ℕ) (q : ℚ) : ℚ := (⌊q * 10 ^ d + 1/2⌋ : ℚ) / 10 ^ d

/-- Left-pad a digit run with zeros to length `d`. -/
def padZeros (d : ℕ) (cs : List Char) : List Char :=
  List.replicate (d - cs.length) '0' ++ cs

/-- Fixed-point rendering of `q` with `d` fractional digits. -/
def renderFixChars (d : ℕ) (q : ℚ) : List Char :=
  let n : ℤ := ⌊q * 10 ^ d + 1/2⌋
  let a : ℕ := n.natAbs
  (if n < 0 then ['-'] else []) ++
    natChars (a / 10 ^ d) ++ '.' :: padZeros d (natChars (a % 10 ^ d))

def renderFix (d : ℕ) (q : ℚ) : String := String.mk (renderFixChars d q)

/-- Leading digit run of a character list, with the remainder. -/
def digitsSpan : List Char → List Char × List Char
  | [] => ([], [])
  | c :: cs =>
    if isDigitChar c then
      let (a, b) := digitsSpan cs
      (c :: a, b)
    else ([], c :: cs)

/-- Unsigned decimal parse: `digits`, `digits.digits`, `digits.` or `.digits`. -/
def parseUF (cs : List Char) : Option ℚ :=
  match digitsSpan cs with
  | (ip, []) => if ip.isEmpty then none else some (natOfChars ip)
  | (ip, '.' :: fs) =>
    if ip.isEmpty && fs.isEmpty then none
    else
      match digitsSpan fs with
      | (fp, []) => some ((natOfChars ip : ℚ) + (natOfChars fp : ℚ) / 10 ^ fp.length)
      | _ => none
  | _ => none

def floatErrMsg : String := "ValueError: could not convert string to float"

/-- Model of Python `float(token)` on plain decimal literals
(scientific notation is never emitted by the codec and not modelled). -/
def parseFloatTok (s : String) : Except String ℚ :=
  match s.data with
  | [] => .error floatErrMsg
  | c :: cs =>
    if c = '-' then
      match parseUF cs with
      | some v => .ok (-v)
      | none => .error floatErrMsg
    else
      match parseUF (c :: cs) with
      | some v => .ok v
      | none => .error floatErrMsg

/-- A list that does not begin with a digit character. -/
def notDigitStart (l : List Char) : Prop :=
  ∀ c cs, l = c :: cs → isDigitChar c = false

/-! ## Python values and parameter dictionaries

`PyVal` is the value universe the codec actually meets: scalars, nested
mappings (parameter blocks), lists of keyword strings, and an `other`
stand-in (`pynone`) for any type the formatter does not accept.  Python's
`bool` is a subclass of `int`, but the `isinstance` chain in `kv_fmt`
tests `float` and `bool` before `int`, so disjoint constructors are
observationally faithful. -/

inductive PyVal where
  | str (s : String)
  | float (q : ℚ)
  | bool (b : Bool)
  | int (z : ℤ)
  | dict (entries : List (String × PyVal))
  | strlist (l : List String)
  | pynone
  deriving Repr

/-- A Python dict as an insertion-ordered association list (Python dicts
preserve insertion order and have unique keys). -/
abbrev Dict := List (String × PyVal)

def dictContains (kw : Dict) (k : String) : Bool := kw.any (·.1 == k)

def dictGet (kw : Dict) (k : String) : Option PyVal :=
  (kw.find? (·.1 == k)).map (·.2)

/-- Python `dict.pop(k)`: the value (if present) and the dict without the key. -/
def dictPop (kw : Dict) (k : String) : Option PyVal × Dict :=
  (dictGet kw k, kw.eraseP (·.1 == k))

/-- Python `int()` truncation toward zero, as used by `'%d' % float`. -/
def qtrunc (q : ℚ) : ℤ := if q < 0 then ⌈q⌉ else ⌊q⌋

/-- Python 3 `round()` to an integer: round half to even. -/
def pyRoundEven (q : ℚ) : ℤ :=
  if q - ⌊q⌋ = 1/2 then (if ⌊q⌋ % 2 = 0 then ⌊q⌋ else ⌊q⌋ + 1)
  else ⌊q + 1/2⌋

/-- Python `'%d' % v`: integers and floats (truncated) and bools format;
anything else raises `TypeError`. -/
def pyFmtD : PyVal → Except String String
  | .int z => .ok (intStr z)
  | .bool b => .ok (if b then "1" else "0")
  | .float q => .ok (intStr (qtrunc q))
  | _ => .error "TypeError: %d format: a number is required"

/-! ## The value formatter (`kv_fmt`) and block writer (`write_dict`) -/

/-- `kv_fmt`: render one key-value pair of a parameter block.  The
`isinstance` chain of the source tests `str`, `float`, `bool`, `int` in
that order; anything else yields `None`. -/
def kv_fmt (k : String) : PyVal → Option String
  | .str s => some (" " ++ k ++ " " ++ s)
  | .float q => some (" " ++ k ++ " " ++ renderFix 6 q)
  | .bool b => some (" " ++ k ++ " " ++ (if b then "on" else "off"))
  | .int z => some (" " ++ k ++ " " ++ intStr z)
  | _ => none

/-- The scalar filter of `write_dict`: `isinstance(v1, (str, bool, int, float))`. -/
def isScalar : PyVal → Bool
  | .str _ | .float _ | .bool _ | .int _ => true
  | _ => false

/-- First loop of `write_dict`: the surviving blocks, each with its
surviving scalar entries, in insertion order. -/
def write_dict_blocks (kw : Dict) : List (String × List (String × PyVal)) :=
  kw.filterMap fun p =>
    match p.2 with
    | .dict kvs =>
      let kv := kvs.filter (fun q => isScalar q.2)
      if kv.isEmpty then none else some (p.1, kv)
    | _ => none

/-- Second loop of `write_dict`, as token lines:
`>name` / formatted pairs / `end` per surviving block. -/
def write_dict_lines (kw : Dict) : List (List String) :=
  (write_dict_blocks kw).flatMap fun b =>
    [[">" ++ b.1]] ++
      (b.2.filterMap fun q => (kv_fmt q.1 q.2).map splitWs) ++ [["end"]]

/-! ## The structure model and the input writer -/

/-- The host structure: ordered atoms with element symbols, positions and
the initial charge/magnetic-moment annotations the writer's defaults read. -/
structure Structure where
  symbols : List String
  positions : List (ℚ × ℚ × ℚ)
  initial_charges : List ℚ
  initial_magmoms : List ℚ
  deriving Repr, DecidableEq

/-- One xyz atom line, as written by the host xyz writer: symbol then the
three coordinates in fixed-point (8 fractional digits). -/
def atomLines (S : Structure) : List (List String) :=
  (S.symbols.zip S.positions).map fun p =>
    [p.1, renderFix 8 p.2.1, renderFix 8 p.2.2.1, renderFix 8 p.2.2.2]

/-- `write_job`: `% npara n` (popping the key) and `% maxcore m` (reading it). -/
def write_job (kw : Dict) : Except String (List (List String) × Dict) := do
  let (l1, kw) ←
    match dictPop kw "npara" with
    | (some v, kw') => do
      let s ← pyFmtD v
      pure ([["%", "npara", s]], kw')
    | (none, _) => pure (([] : List (List String)), kw)
  let l2 ←
    match dictGet kw "maxcore" with
    | some v => do
      let s ← pyFmtD v
      pure [["%", "maxcore", s]]
    | none => pure ([] : List (List String))
  pure (l1 ++ l2, kw)

/-- `write_keywords`: `! tok tok ...`, defaulting to the fixed
method/basis pair when the key is absent. -/
def write_keywords (kw : Dict) : Except String (List (List String) × Dict) :=
  match dictPop kw "keywords" with
  | (some (.strlist l), kw') => .ok ([["!"] ++ l], kw')
  | (some _, _) => .error "TypeError: keywords must be a list of strings"
  | (none, _) => .ok ([["!", "pbe0", "def2-svp"]], kw)

/-- `write_xyz`: geometry block `>xyz charge mult` / atom lines / `end`,
with charge and mult popped from the parameters or derived from the
structure's annotations. -/
def write_xyz (S : Structure) (kw : Dict) :
    Except String (List (List String) × Dict) := do
  let (chargeV, kw) :=
    match dictPop kw "charge" with
    | (some v, kw') => (v, kw')
    | (none, _) => (PyVal.float S.initial_charges.sum, kw)
  let (multV, kw) :=
    match dictPop kw "mult" with
    | (some v, kw') => (v, kw')
    | (none, _) => (PyVal.int (|pyRoundEven S.initial_magmoms.sum| + 1), kw)
  let cs ← pyFmtD chargeV
  let ms ← pyFmtD multV
  pure (([[">xyz", cs, ms]] ++ atomLines S ++ [["end"]], kw))

/-- Python `copy.deepcopy` on a parameter dict; with value semantics the
copy is the value itself — the point is that it lives at a fresh address
(see the heap model below). -/
def deepcopy (d : Dict) : Dict := d

/-- The `write_aip` pipeline on a working dict: job control, keywords,
parameter blocks, geometry, in that order; empty groups vanish.  Returns
the emitted token lines and the final state of the working dict. -/
def write_aip_core (S : Structure) (kw : Dict) :
    Except String (List (List String)) × Dict :=
  match write_job kw with
  | .error e => (.error e, kw)
  | .ok (l1, kw1) =>
    match write_keywords kw1 with
    | .error e => (.error e, kw1)
    | .ok (l2, kw2) =>
      let l3 := write_dict_lines kw2
      match write_xyz S kw2 with
      | .error e => (.error e, kw2)
      | .ok (l4, kw3) => (.ok (l1 ++ l2 ++ l3 ++ l4), kw3)

/-- `write_aip` (token-line view): run the pipeline on a private copy of
the caller's parameters. -/
def write_aip_lines (S : Structure) (P : Dict) :
    Except String (List (List String)) :=
  (write_aip_core S (deepcopy P)).1

/-- Render token lines to transcript text. -/
def renderLines (ls : List (List String)) : String :=
  String.intercalate "\n" (ls.map (String.intercalate " "))

/-- `write_aip`: the transcript text written to the file. -/
def write_aip (S : Structure) (P : Dict) : Except String String :=
  (write_aip_lines S P).map renderLines

/-- A tiny heap of parameter dicts (addresses are indices), making the
copy-before-pop flow of `write_aip` observable: the caller's dict sits at
address `a`, the working copy is allocated at a fresh address, and all
pops hit the copy. -/
def write_aip_heap (h : List Dict) (a : ℕ) (S : Structure) :
    List Dict × Except String String :=
  let caller := (h.get? a).getD []
  let h2 := h ++ [deepcopy caller]
  let (res, d') := write_aip_core S (deepcopy caller)
  (h2.set h.length d', res.map renderLines)

/-! ## The input reader

An input transcript is a list of lines, each a list of whitespace
separated tokens.  The geometry-region pattern
`'>xyz\s+\d+\s+\d+\s*\n(.*?)\n\s*end'` (with `re.S`) is modelled on that
view: a header line is one whose final three tokens are
something ending in `>xyz`, a digit run and a digit run; the capture runs
to the first later line whose first token starts with `end`; the greedy
`\s*` at the header and the minimal capture absorb blank lines at either
edge of the body.  A header spread over several physical lines (possible
because `\s` matches newlines) is not modelled. -/

abbrev InLines := List (List String)

def tokenAllDigits (s : String) : Bool :=
  !s.data.isEmpty && s.data.all isDigitChar

/-- Does the line end in `... <tail-ending-in-hdr> <digits> <digits>`? -/
def isHeaderLine (hdr : String) : List String → Bool
  | [a, b, c] => strEndsWith a hdr && tokenAllDigits b && tokenAllDigits c
  | _ :: rest => isHeaderLine hdr rest
  | [] => false

def isXyzHeaderLine (l : List String) : Bool := isHeaderLine ">xyz" l

/-- `'\n\s*end'`: a line whose first token starts with `end`. -/
def isEndLine : List String → Bool
  | t :: _ => strStartsWith t "end"
  | [] => false

/-- Drop blank lines at either edge of a captured body (absorbed by the
greedy `\s*` after the header and the `\s*` before `end`). -/
def cleanBody (b : InLines) : InLines :=
  ((b.dropWhile List.isEmpty).reverse.dropWhile List.isEmpty).reverse

/-- The region scanner: outside a region (`acc = none`) look for a header
line; inside one (`acc = some body`, lines reversed) look for the first
`end` line and emit the cleaned body.  An open region that never meets an
`end` matches nothing. -/
def regionsAux (hdr : List String → Bool) :
    InLines → Option InLines → List InLines
  | [], _ => []
  | l :: rest, none =>
    if hdr l then regionsAux hdr rest (some [])
    else regionsAux hdr rest none
  | l :: rest, some acc =>
    if isEndLine l then cleanBody acc.reverse :: regionsAux hdr rest none
    else regionsAux hdr rest (some (l :: acc))

/-- All non-overlapping header-delimited regions, in transcript order. -/
def findRegions (hdr : List String → Bool) (t : InLines) : List InLines :=
  regionsAux hdr t none

def findXyzRegions (t : InLines) : List InLines := findRegions isXyzHeaderLine t

def idxErrMsg : String := "IndexError: list index out of range"

def noImageErrMsg : String := "ase.io.read: no image in xyz input"

/-- Fallible `mapM` over `Except`, written out for easy induction. -/
def exceptMapM (f : α → Except String β) : List α → Except String (List β)
  | [] => .ok []
  | x :: xs => do
    let b ← f x
    let bs ← exceptMapM f xs
    pure (b :: bs)

/-- One atom line of an xyz document: `symbol x y z` (extra tokens are
ignored, as by `line.split()` indexing). -/
def parseAtomLine : List String → Except String (String × (ℚ × ℚ × ℚ))
  | sym :: a :: b :: c :: _ => do
    let x ← parseFloatTok a
    let y ← parseFloatTok b
    let z ← parseFloatTok c
    pure (sym, (x, y, z))
  | _ => .error "ValueError: malformed xyz line"

/-- Modelled from the spec: the host xyz reader (`ase.io.read` with
`format='xyz'`), an external collaborator — reads the declared atom
count, then that many `symbol x y z` lines; raises when the document has
fewer lines or an unparsable line, and raises on an empty stream (no
image to return). -/
def ase_io_read_xyz (natoms : ℕ) (body : InLines) : Except String Structure :=
  if body.length < natoms then .error idxErrMsg
  else
    match exceptMapM parseAtomLine (body.take natoms) with
    | .error e => .error e
    | .ok atoms =>
      .ok ⟨atoms.map (·.1), atoms.map (·.2),
        List.replicate atoms.length 0, List.replicate atoms.length 0⟩

/-- `parse_xyz`: exactly one `>xyz` region is reformatted into an xyz
document (atom count = number of captured lines, with an empty capture
counting one line) and handed to the xyz reader; any other region count
hands the reader an empty stream, which raises. -/
def parse_xyz (t : InLines) : Except String Structure :=
  match findXyzRegions t with
  | [body] =>
    let natoms := if body.isEmpty then 1 else body.length
    ase_io_read_xyz natoms body
  | _ => .error noImageErrMsg

/-- `'>coord\s*\n'`: the line's last token ends in `>coord`. -/
def isCoordHeaderLine (l : List String) : Bool :=
  match l.getLast? with
  | some s => strEndsWith s ">coord"
  | none => false

def isZmatHeaderLine (l : List String) : Bool := isHeaderLine ">zmat" l

/-- Modelled from the spec: the internal-coordinate resolver
(`ase.io.zmatrix.parse_zmatrix`) is an external collaborator.  Handing it
`None` (region count ≠ 1) raises; its successful behaviour on an actual
z-matrix body is outside every property proved here and is represented
by an error marker. -/
def parse_zmatrix_model : Option InLines → List String → Except String Structure
  | none, _ => .error "TypeError: zmat text is None"
  | some _, _ => .error "zmatrix resolution not modelled"

/-- `parse_zmat`: optional `>coord` region rewritten to `name=value`
definitions, then the single `>zmat` region handed to the resolver. -/
def parse_zmat (t : InLines) : Except String Structure :=
  let defs :=
    match findRegions isCoordHeaderLine t with
    | [c] => c.map fun l => String.intercalate "=" (l.take 2)
    | _ => []
  match findRegions isZmatHeaderLine t with
  | [z] => parse_zmatrix_model (some z) defs
  | _ => parse_zmatrix_model none defs

/-- Python `'<pat>' in text` on the tokenised transcript (the patterns
used contain no whitespace, so they cannot straddle tokens or lines). -/
def containsTok (t : InLines) (pat : String) : Bool :=
  t.any fun l => l.any fun s => strContains s pat

/-- `read_aip`: dispatch on the literal markers `>xyz` then `>zmat`;
neither present gives a silent `None`. -/
def read_aip (t : InLines) : Except String (Option Structure) :=
  if containsTok t ">xyz" then (parse_xyz t).map some
  else if containsTok t ">zmat" then (parse_zmat t).map some
  else .ok none

/-! ## Output transcripts and the section extractors

An output transcript is the ordered list of sections the six banner
patterns can recognise, with their already-tokenised payloads;
`re.findall` for one banner is the `filterMap` selecting that
constructor's occurrences in file order.  Unit conversion constants are
the host values (`ase.units`, CODATA 2014). -/

def Hartree : ℚ := 27.211386245988

def Bohr : ℚ := 0.5291772105638411

inductive OSection where
  /-- `Current Geometry(angstroms):` block: symbol and position per atom. -/
  | geom (atoms : List (String × (ℚ × ℚ × ℚ)))
  /-- `<type> charges:` … `Sum of <type> charges` block: last column per line. -/
  | charges (vals : List ℚ)
  /-- `Spin densities:` block: last column per line. -/
  | spin (vals : List ℚ)
  /-- `Dipole moment (...)` line: the X=, Y=, Z= fields. -/
  | dipole (x y z : ℚ)
  /-- `ETot = <e> ... Ekin` occurrence. -/
  | energy (e : ℚ)
  /-- `Cartesian Gradient (...)` block: the numeric columns per atom line. -/
  | gradient (rows : List (ℚ × ℚ × ℚ))
  /-- `Cartesian Force (...)` block: the numeric columns per atom line. -/
  | force (rows : List (ℚ × ℚ × ℚ))
  /-- Text matched by no banner. -/
  | other
  deriving Repr, DecidableEq

abbrev OText := List OSection

def geomOccs (t : OText) : List (List (String × (ℚ × ℚ × ℚ))) :=
  t.filterMap fun s => match s with | .geom g => some g | _ => none

def chargeOccs (t : OText) : List (List ℚ) :=
  t.filterMap fun s => match s with | .charges v => some v | _ => none

def spinOccs (t : OText) : List (List ℚ) :=
  t.filterMap fun s => match s with | .spin v => some v | _ => none

def dipoleOccs (t : OText) : List (ℚ × ℚ × ℚ) :=
  t.filterMap fun s => match s with | .dipole x y z => some (x, y, z) | _ => none

def energyOccs (t : OText) : List ℚ :=
  t.filterMap fun s => match s with | .energy e => some e | _ => none

def gradOccs (t : OText) : List (List (ℚ × ℚ × ℚ)) :=
  t.filterMap fun s => match s with | .gradient r => some r | _ => none

def forceOccs (t : OText) : List (List (ℚ × ℚ × ℚ)) :=
  t.filterMap fun s => match s with | .force r => some r | _ => none

/-- Scale all three components of a row. -/
def scaleRow (k : ℚ) (r : ℚ × ℚ × ℚ) : ℚ × ℚ × ℚ :=
  (r.1 * k, r.2.1 * k, r.2.2 * k)

/-- `parse_aop_xyz`: element and position sequences of every geometry
section, in order.  The pair count is the authoritative image count. -/
def parse_aop_xyz (t : OText) :
    List (List String) × List (List (ℚ × ℚ × ℚ)) :=
  ((geomOccs t).map (·.map Prod.fst), (geomOccs t).map (·.map Prod.snd))

/-- `parse_aop_charge`: all occurrences, truncated to `n+1`, or `n`
absent entries when there are none. -/
def parse_aop_charge (t : OText) (n : ℕ) : List (Option (List ℚ)) :=
  let charge_array := (chargeOccs t).map some
  let charge_array := charge_array.take (n + 1)
  if charge_array.length = 0 then List.replicate n none else charge_array

/-- `parse_aop_spin`: identical alignment to the charge extractor. -/
def parse_aop_spin (t : OText) (n : ℕ) : List (Option (List ℚ)) :=
  let spin_array := (spinOccs t).map some
  let spin_array := spin_array.take (n + 1)
  if spin_array.length = 0 then List.replicate n none else spin_array

/-- `parse_aop_dipole`: each 3-vector scaled by the length factor,
truncated to `n+1`; *no* absent-padding when there are none. -/
def parse_aop_dipole (t : OText) (n : ℕ) : List (ℚ × ℚ × ℚ) :=
  (((dipoleOccs t).map (scaleRow Bohr)).take (n + 1))

/-- `parse_aop_energy`: each value scaled by the energy factor, truncated
to `n+1`; *no* absent-padding when there are none. -/
def parse_aop_energy (t : OText) (n : ℕ) : List ℚ :=
  (((energyOccs t).map (· * Hartree)).take (n + 1))

/-- `parse_aop_gradient`: every gradient block, scaled by
`Hartree/Bohr` and negated, truncated to `n+1`; `n` absent entries when
there are none. -/
def parse_aop_gradient (t : OText) (n : ℕ) : List (Option (List (ℚ × ℚ × ℚ))) :=
  let force_data := gradOccs t
  if 0 < force_data.length then
    ((force_data.map fun rows =>
      some (rows.map (scaleRow (Hartree / Bohr * (-1))))).take (n + 1))
  else List.replicate n none

/-- `parse_aop_force`: the *first* force block only, scaled by
`Hartree/Bohr` without negation; absent when there are none. -/
def parse_aop_force (t : OText) : Option (List (ℚ × ℚ × ℚ)) :=
  match forceOccs t with
  | [] => none
  | f :: _ => some (f.map (scaleRow (Hartree / Bohr)))

/-! ## The trajectory assembler -/

/-- One image of the trajectory: structure plus per-image results. -/
structure Image where
  element : List String
  position : List (ℚ × ℚ × ℚ)
  energy : ℚ
  forces : Option (List (ℚ × ℚ × ℚ))
  dipole : ℚ × ℚ × ℚ
  charges : Option (List ℚ)
  magmoms : Option (List ℚ)
  deriving Repr, DecidableEq

/-- Python `l[i]` for a non-negative index. -/
def listIdx (l : List α) (i : ℕ) : Except String α :=
  match l.get? i with
  | some a => .ok a
  | none => .error idxErrMsg

/-- Python `l[i]` with negative-index wrap-around. -/
def pyIndex (l : List α) (i : ℤ) : Except String α :=
  if (if i < 0 then i + l.length else i) < 0 then .error idxErrMsg
  else listIdx l (if i < 0 then i + l.length else i).toNat

/-- Python `l[-1]`. -/
def pyLast (l : List α) : Except String α :=
  match l.getLast? with
  | some a => .ok a
  | none => .error idxErrMsg

/-- The image count: number of geometry sections found. -/
def nimages (t : OText) : ℕ := (parse_aop_xyz t).1.length

/-- The loop body of `iread_aop`: build image `i` by indexing each
aligned sequence. -/
def imageAt (t : OText) (i : ℕ) : Except String Image := do
  let el ← listIdx (parse_aop_xyz t).1 i
  let pos ← listIdx (parse_aop_xyz t).2 i
  let e ← listIdx (parse_aop_energy t (nimages t)) i
  let f ← listIdx (parse_aop_gradient t (nimages t)) i
  let d ← listIdx (parse_aop_dipole t (nimages t)) i
  let c ← listIdx (parse_aop_charge t (nimages t)) i
  let m ← listIdx (parse_aop_spin t (nimages t)) i
  pure (Image.mk el pos e f d c m)

/-- `iread_aop`: extract every sequence once, then build one image per
geometry section, indexing each aligned sequence at the image number. -/
def iread_aop (t : OText) : Except String (List Image) :=
  exceptMapM (imageAt t) (List.range (nimages t))

/-- `read_aop`: materialise the trajectory and select one image. -/
def read_aop (t : OText) (index : ℤ) : Except String Image := do
  let imgs ← iread_aop t
  pyIndex imgs index

/-- The per-calculation results collected by the calculator façade. -/
structure SingleResults where
  charge : Option (List ℚ)
  magmoms : Option (List ℚ)
  dipole : ℚ × ℚ × ℚ
  energy : ℚ
  forces : Option (List (ℚ × ℚ × ℚ))
  deriving Repr, DecidableEq

/-- `Amesp.read_results`: last entry of each aligned sequence, and the
first `Cartesian Force` block (not the gradient) for the forces. -/
def read_results (t : OText) : Except String SingleResults := do
  let element := (parse_aop_xyz t).1
  let nimage := element.length
  let c ← pyLast (parse_aop_charge t nimage)
  let m ← pyLast (parse_aop_spin t nimage)
  let d ← pyLast (parse_aop_dipole t nimage)
  let e ← pyLast (parse_aop_energy t nimage)
  pure (SingleResults.mk c m d e (parse_aop_force t))

/-! ## Concrete transcripts used as counterexamples and witnesses -/

/-- A one-atom geometry payload. -/
def gH : List (String × (ℚ × ℚ × ℚ)) := [("H", (0, 0, 0))]

/-- One geometry section and one energy, but no dipole section. -/
def Tc1 : OText := [.geom gH, .energy 1]

/-- One geometry section and nothing else. -/
def Tc4 : OText := [.geom gH]

/-- A fully populated one-image transcript. -/
def Tw1 : OText :=
  [.geom gH, .energy 1, .dipole 1 2 3, .charges [1], .spin [1],
    .gradient [(2, 0, 0)], .force [(1, 0, 0)]]

/-- A one-image transcript with energy and dipole only. -/
def Tw2 : OText := [.geom gH, .energy 1, .dipole 1 2 3]

/-- The malformed-region input: a `>xyz` header with no closing `end`. -/
def Tc2 : InLines := [[">xyz", "0", "1"], ["H", "0", "0", "0"]]

/-- A transcript whose `>xyz` occurrence sits inside a junk token while a
well-formed `>zmat` region is present. -/
def Tc10 : InLines := [["a>xyzb"], [">zmat", "0", "1"], ["C"], ["end"]]

/-- Composition the round-trip claim quantifies over: read back the
written lines. -/
def roundTrip (S : Structure) (P : Dict) : Except String (Option Structure) :=
  (write_aip_lines S P).bind read_aip

/-- A one-atom structure used by the round-trip counterexample/witness. -/
def Sc6 : Structure := ⟨["H"], [(0, 0, 0)], [0], [0]⟩

/-- An anion: net charge −1, a perfectly ordinary parameter set. -/
def Pc6 : Dict := [("charge", .int (-1)), ("mult", .int 1)]

/-- The same parameters with a non-negative charge. -/
def Pw6 : Dict := [("charge", .int 0), ("mult", .int 1)]

/-! ## Facts about the decimal rendering -/

lemma digitVal_digitChar {d : ℕ} (hd : d < 10) : digitVal (digitChar d) = d := by
  interval_cases d <;> rfl

lemma isDigitChar_digitChar {d : ℕ} (hd : d < 10) : isDigitChar (digitChar d) = true := by
  interval_cases d <;> rfl

lemma natCharsAux_eq_digits :
    ∀ (fuel n : ℕ), n ≤ fuel →
      natCharsAux fuel n = (Nat.digits 10 n).reverse.map digitChar := by
  intro fuel
  induction fuel with
  | zero =>
    intro n hn
    interval_cases n
    simp [natCharsAux]
  | succ fuel ih =>
    intro n hn
    cases n with
    | zero => simp [natCharsAux]
    | succ m =>
      have hpos : 0 < m + 1 := Nat.succ_pos m
      rw [show natCharsAux (fuel + 1) (m + 1) =
          natCharsAux fuel ((m + 1) / 10) ++ [digitChar ((m + 1) % 10)] from rfl]
      rw [ih _ (by omega)]
      rw [Nat.digits_def' (by norm_num : (1:ℕ) < 10) hpos]
      simp

lemma natChars_eq_digits (n : ℕ) :
    natChars n = if n = 0 then ['0'] else (Nat.digits 10 n).reverse.map digitChar := by
  unfold natChars
  split
  · rfl
  · exact natCharsAux_eq_digits n n le_rfl

lemma natChars_ne_nil (n : ℕ) : natChars n ≠ [] := by
  rw [natChars_eq_digits]
  split
  · simp
  · next h =>
    simp only [ne_eq, List.map_eq_nil_iff, List.reverse_eq_nil_iff]
    exact Nat.digits_ne_nil_iff_ne_zero.mpr h

lemma natChars_all_digits (n : ℕ) : ∀ c ∈ natChars n, isDigitChar c = true := by
  intro c hc
  rw [natChars_eq_digits] at hc
  split at hc
  · simp only [List.mem_singleton] at hc
    subst hc; rfl
  · simp only [List.mem_map, List.mem_reverse] at hc
    obtain ⟨d, hd, rfl⟩ := hc
    exact isDigitChar_digitChar (Nat.digits_lt_base (by norm_num) hd)

lemma natOfChars_natChars (n : ℕ) : natOfChars (natChars n) = n := by
  rw [natChars_eq_digits]
  split
  · next h => subst h; rfl
  · unfold natOfChars
    simp only [List.map_reverse, List.map_map, List.reverse_reverse]
    have hmap : (Nat.digits 10 n).map (digitVal ∘ digitChar) = (Nat.digits 10 n).map id :=
      List.map_congr_left fun d hd =>
        digitVal_digitChar (Nat.digits_lt_base (by norm_num) hd)
    rw [hmap, List.map_id]
    exact Nat.ofDigits_digits 10 n

lemma natOfChars_padZeros (d : ℕ) (cs : List Char) :
    natOfChars (padZeros d cs) = natOfChars cs := by
  unfold padZeros natOfChars
  rw [List.reverse_append, List.reverse_replicate, List.map_append]
  rw [Nat.ofDigits_append]
  have : List.map digitVal (List.replicate (d - cs.length) '0') =
      List.replicate (d - cs.length) 0 := by
    rw [List.map_replicate]; rfl
  rw [this]
  have hz : ∀ k : ℕ, Nat.ofDigits 10 (List.replicate k 0) = 0 := by
    intro k
    induction k with
    | zero => rfl
    | succ k ih => simp [List.replicate_succ, Nat.ofDigits_cons, ih]
  rw [hz]; simp

lemma digitsSpan_append {l₁ l₂ : List Char}
    (h₁ : ∀ c ∈ l₁, isDigitChar c = true) (h₂ : notDigitStart l₂) :
    digitsSpan (l₁ ++ l₂) = (l₁, l₂) := by
  induction l₁ with
  | nil =>
    cases l₂ with
    | nil => rfl
    | cons c cs =>
      simp only [List.nil_append, digitsSpan, h₂ c cs rfl]
      rfl
  | cons c cs ih =>
    have hc : isDigitChar c = true := h₁ c (by simp)
    have ih' := ih (fun x hx => h₁ x (by simp [hx]))
    simp only [List.cons_append, digitsSpan, hc, if_true, List.append_eq, ih']

lemma natChars_length_le {m d : ℕ} (hd : 1 ≤ d) (hm : m < 10 ^ d) :
    (natChars m).length ≤ d := by
  rw [natChars_eq_digits]
  split
  · simpa using hd
  · next h =>
    rw [List.length_map, List.length_reverse,
      Nat.digits_len 10 m (by norm_num) h]
    have : Nat.log 10 m < d := Nat.log_lt_of_lt_pow h hm
    omega

lemma padZeros_all_digits {d : ℕ} {cs : List Char}
    (h : ∀ c ∈ cs, isDigitChar c = true) :
    ∀ c ∈ padZeros d cs, isDigitChar c = true := by
  intro c hc
  unfold padZeros at hc
  rcases List.mem_append.mp hc with h0 | h0
  · rw [List.eq_of_mem_replicate h0]; rfl
  · exact h c h0

lemma padZeros_length {d : ℕ} {cs : List Char} (h : cs.length ≤ d) :
    (padZeros d cs).length = d := by
  unfold padZeros
  rw [List.length_append, List.length_replicate]
  omega

lemma nat_div_add_mod_cast (a S : ℕ) (hSQ : (S : ℚ) ≠ 0) :
    ((a / S : ℕ) : ℚ) + ((a % S : ℕ) : ℚ) / (S : ℚ) = (a : ℚ) / S := by
  rw [eq_div_iff hSQ, add_mul, div_mul_cancel₀ _ hSQ]
  have h2 : ((S * (a / S) + a % S : ℕ) : ℚ) = (a : ℚ) := by
    exact_mod_cast congrArg (Nat.cast (R := ℚ)) (Nat.div_add_mod a S)
  push_cast at h2
  linarith

/-- Reduction of `parseFloatTok` on an explicit character list. -/
lemma parseFloatTok_mk_cons (c : Char) (cs : List Char) :
    parseFloatTok (String.mk (c :: cs)) =
      if c = '-' then
        (match parseUF cs with
          | some v => Except.ok (-v)
          | none => Except.error floatErrMsg)
      else
        (match parseUF (c :: cs) with
          | some v => Except.ok v
          | none => Except.error floatErrMsg) := rfl

/-- Parsing the fixed-point rendering recovers the quantised value exactly. -/
lemma parseFloatTok_renderFix (d : ℕ) (q : ℚ) (hd : 1 ≤ d) :
    parseFloatTok (renderFix d q) = .ok (qfix d q) := by
  set n : ℤ := ⌊q * 10 ^ d + 1/2⌋ with hn
  set a : ℕ := n.natAbs with ha
  set S : ℕ := 10 ^ d with hS
  have hS0 : (S : ℚ) ≠ 0 := by positivity
  have hfraclt : a % S < S := Nat.mod_lt _ (by positivity)
  have hfl : (natChars (a % S)).length ≤ d := natChars_length_le hd (hS ▸ hfraclt)
  -- the rendered character string
  have hchars : renderFixChars d q =
      (if n < 0 then ['-'] else []) ++
        (natChars (a / S) ++ '.' :: padZeros d (natChars (a % S))) := by
    simp only [renderFixChars, ← hn, ← ha, ← hS, List.append_assoc]
  -- the unsigned part parses to a / S (as a rational)
  have hpUF : parseUF (natChars (a / S) ++ '.' :: padZeros d (natChars (a % S))) =
      some ((a : ℚ) / (S : ℚ)) := by
    have hdp1 : digitsSpan (natChars (a / S) ++ '.' :: padZeros d (natChars (a % S)))
        = (natChars (a / S), '.' :: padZeros d (natChars (a % S))) :=
      digitsSpan_append (natChars_all_digits _) (by intro c cs h; cases h; rfl)
    have hdp2 : digitsSpan (padZeros d (natChars (a % S)) ++ ([] : List Char))
        = (padZeros d (natChars (a % S)), []) :=
      digitsSpan_append (padZeros_all_digits (natChars_all_digits _))
        (by intro c cs h; cases h)
    rw [List.append_nil] at hdp2
    rw [parseUF, hdp1]
    simp only [hdp2]
    rw [if_neg (by simp [natChars_ne_nil])]
    rw [natOfChars_padZeros, natOfChars_natChars, natOfChars_natChars,
      padZeros_length hfl]
    rw [show ((10 : ℚ) ^ d) = (S : ℚ) by rw [hS]; push_cast; ring]
    rw [nat_div_add_mod_cast a S hS0]
  have hq : qfix d q = (n : ℚ) / (S : ℚ) := by
    rw [qfix, ← hn, hS]; push_cast; ring
  by_cases hneg : n < 0
  · have hzz : (n.natAbs : ℤ) = -n := by omega
    have hcast : ((a : ℚ)) = -(n : ℚ) := by
      calc ((a : ℚ)) = ((n.natAbs : ℤ) : ℚ) := by rw [Int.cast_natCast, ha]
        _ = ((-n : ℤ) : ℚ) := by rw [hzz]
        _ = -(n : ℚ) := by push_cast; ring
    have hval : -((a : ℚ) / (S : ℚ)) = qfix d q := by
      rw [hq, hcast]; ring
    rw [renderFix, hchars, if_pos hneg, List.singleton_append]
    rw [parseFloatTok_mk_cons, if_pos rfl, hpUF]
    exact congrArg Except.ok hval
  · have hzz : (n.natAbs : ℤ) = n := by omega
    have hcast : ((a : ℚ)) = (n : ℚ) := by
      calc ((a : ℚ)) = ((n.natAbs : ℤ) : ℚ) := by rw [Int.cast_natCast, ha]
        _ = (n : ℚ) := by rw [hzz]
    obtain ⟨c, cs, hcc⟩ : ∃ c cs, natChars (a / S) = c :: cs := by
      cases h : natChars (a / S) with
      | nil => exact absurd h (natChars_ne_nil _)
      | cons c cs => exact ⟨c, cs, rfl⟩
    have hcdig : isDigitChar c = true :=
      natChars_all_digits (a / S) c (by rw [hcc]; simp)
    have hcne : ¬(c = '-') := by
      intro h; subst h; cases hcdig
    have hval : ((a : ℚ) / (S : ℚ)) = qfix d q := by rw [hq, hcast]
    rw [renderFix, hchars, if_neg hneg, List.nil_append, hcc, List.cons_append]
    rw [parseFloatTok_mk_cons, if_neg hcne, ← List.cons_append, ← hcc, hpUF]
    exact congrArg Except.ok hval

/-- The quantisation error of `d`-digit fixed-point rounding. -/
lemma abs_qfix_sub_le (d : ℕ) (q : ℚ) : |qfix d q - q| ≤ 1 / (2 * 10 ^ d) := by
  have hS : (0 : ℚ) < 10 ^ d := by positivity
  have h1 : (⌊q * 10 ^ d + 1/2⌋ : ℚ) ≤ q * 10 ^ d + 1/2 := Int.floor_le _
  have h2 : q * 10 ^ d + 1/2 - 1 < (⌊q * 10 ^ d + 1/2⌋ : ℚ) := Int.sub_one_lt_floor _
  have habs : |(⌊q * 10 ^ d + 1/2⌋ : ℚ) - q * 10 ^ d| ≤ 1/2 := by
    rw [abs_le]; constructor <;> linarith
  have heq : qfix d q - q = ((⌊q * 10 ^ d + 1/2⌋ : ℚ) - q * 10 ^ d) / 10 ^ d := by
    rw [qfix, sub_div, mul_div_cancel_right₀ _ (ne_of_gt hS)]
  rw [heq, abs_div, abs_of_pos hS, div_le_div_iff hS (by positivity)]
  calc |(⌊q * 10 ^ d + 1/2⌋ : ℚ) - q * 10 ^ d| * (2 * 10 ^ d)
      ≤ (1/2) * (2 * 10 ^ d) := mul_le_mul_of_nonneg_right habs (by positivity)
    _ = 1 * 10 ^ d := by ring

/-! ## Helper lemmas on indexing and fallible mapping -/

lemma listIdx_ok_iff {α} {l : List α} {i : ℕ} {a : α} :
    listIdx l i = .ok a ↔ l.get? i = some a := by
  unfold listIdx
  cases h : l.get? i <;> simp

lemma exceptMapM_ok_spec {α β} {f : α → Except String β} :
    ∀ {xs : List α} {l : List β}, exceptMapM f xs = .ok l →
      l.length = xs.length ∧
        ∀ i a, xs.get? i = some a → ∃ b, f a = .ok b ∧ l.get? i = some b := by
  intro xs
  induction xs with
  | nil =>
    intro l h
    simp only [exceptMapM] at h
    cases h
    exact ⟨rfl, by intro i a h; simp at h⟩
  | cons x xs ih =>
    intro l h
    simp only [exceptMapM, bind, Except.bind] at h
    cases hfx : f x with
    | error e => rw [hfx] at h; cases h
    | ok b =>
      rw [hfx] at h
      cases hrest : exceptMapM f xs with
      | error e => rw [hrest] at h; cases h
      | ok bs =>
        rw [hrest] at h
        simp only [pure, Except.pure, Except.ok.injEq] at h
        subst h
        obtain ⟨hlen, hget⟩ := ih hrest
        refine ⟨by simp [hlen], ?_⟩
        intro i a hi
        cases i with
        | zero =>
          simp only [List.get?_cons_zero, Option.some.injEq] at hi
          subst hi
          exact ⟨b, hfx, rfl⟩
        | succ j =>
          simp only [List.get?_cons_succ] at hi ⊢
          exact hget j a hi

lemma exceptMapM_ok_of_forall {α β} {f : α → Except String β} :
    ∀ {xs : List α}, (∀ a ∈ xs, ∃ b, f a = .ok b) →
      ∃ l, exceptMapM f xs = .ok l := by
  intro xs
  induction xs with
  | nil => intro _; exact ⟨[], rfl⟩
  | cons x xs ih =>
    intro h
    obtain ⟨b, hb⟩ := h x (by simp)
    obtain ⟨l, hl⟩ := ih (fun a ha => h a (by simp [ha]))
    exact ⟨b :: l, by simp [exceptMapM, bind, Except.bind, hb, hl, pure, Except.pure]⟩

lemma pyIndex_neg_one {α} {l : List α} (h : l ≠ []) (a : α)
    (ha : l.getLast? = some a) : pyIndex l (-1) = .ok a := by
  have hlen : 1 ≤ l.length := List.length_pos.mpr h
  have hj : (if (-1 : ℤ) < 0 then (-1 : ℤ) + l.length else (-1 : ℤ)) =
      ((l.length - 1 : ℕ) : ℤ) := by
    rw [if_pos (by norm_num)]
    push_cast [Nat.cast_sub hlen]
    ring
  unfold pyIndex
  rw [hj, if_neg (by omega), Int.toNat_natCast]
  rw [listIdx_ok_iff, ← List.getLast?_eq_get?]
  exact ha

lemma pyIndex_out_of_range {α} {l : List α} {i : ℤ}
    (h : (l.length : ℤ) ≤ i ∨ i < -(l.length : ℤ)) :
    pyIndex l i = .error idxErrMsg := by
  unfold pyIndex
  rcases h with h | h
  · have h0 : ¬(i < 0) := by
      have : (0 : ℤ) ≤ l.length := by positivity
      omega
    simp only [if_neg h0]
    unfold listIdx
    have hn : l.get? i.toNat = none := by
      rw [List.get?_eq_none]
      omega
    rw [hn]
  · have h0 : i < 0 := by
      have : (0 : ℤ) ≤ l.length := by positivity
      omega
    simp only [if_pos h0]
    rw [if_pos (by omega)]

lemma iread_aop_ok_spec {t : OText} {imgs : List Image}
    (h : iread_aop t = .ok imgs) :
    imgs.length = nimages t ∧
      ∀ i, i < nimages t → ∃ img, imageAt t i = .ok img ∧ imgs.get? i = some img := by
  unfold iread_aop at h
  obtain ⟨hlen, hget⟩ := exceptMapM_ok_spec h
  refine ⟨by simp [hlen], ?_⟩
  intro i hi
  obtain ⟨img, h1, h2⟩ := hget i i (by rw [List.get?_range hi])
  exact ⟨img, h1, h2⟩

lemma imageAt_ok_iff {t : OText} {i : ℕ} {img : Image} :
    imageAt t i = .ok img ↔
      (parse_aop_xyz t).1.get? i = some img.element ∧
      (parse_aop_xyz t).2.get? i = some img.position ∧
      (parse_aop_energy t (nimages t)).get? i = some img.energy ∧
      (parse_aop_gradient t (nimages t)).get? i = some img.forces ∧
      (parse_aop_dipole t (nimages t)).get? i = some img.dipole ∧
      (parse_aop_charge t (nimages t)).get? i = some img.charges ∧
      (parse_aop_spin t (nimages t)).get? i = some img.magmoms := by
  obtain ⟨v1, v2, v3, v4, v5, v6, v7⟩ := img
  unfold imageAt listIdx
  simp only [bind, Except.bind]
  cases h1 : (parse_aop_xyz t).1.get? i <;> simp only [h1]
  case none => simp
  cases h2 : (parse_aop_xyz t).2.get? i <;> simp only [h2]
  case none => simp
  cases h3 : (parse_aop_energy t (nimages t)).get? i <;> simp only [h3]
  case none => simp
  cases h4 : (parse_aop_gradient t (nimages t)).get? i <;> simp only [h4]
  case none => simp
  cases h5 : (parse_aop_dipole t (nimages t)).get? i <;> simp only [h5]
  case none => simp
  cases h6 : (parse_aop_charge t (nimages t)).get? i <;> simp only [h6]
  case none => simp
  cases h7 : (parse_aop_spin t (nimages t)).get? i <;> simp only [h7]
  case none => simp
  simp [pure, Except.pure, Image.mk.injEq, eq_comm]

/-! ## Shape lemmas for the extractors -/

lemma nimages_eq_geom_length (t : OText) : nimages t = (geomOccs t).length := by
  simp [nimages, parse_aop_xyz]

lemma parse_aop_xyz_fst_length (t : OText) :
    (parse_aop_xyz t).1.length = (geomOccs t).length := by
  simp [parse_aop_xyz]

lemma parse_aop_xyz_snd_length (t : OText) :
    (parse_aop_xyz t).2.length = (geomOccs t).length := by
  simp [parse_aop_xyz]

lemma parse_aop_charge_of_nil {t : OText} (n : ℕ) (h : chargeOccs t = []) :
    parse_aop_charge t n = List.replicate n none := by
  simp [parse_aop_charge, h]

lemma parse_aop_charge_of_ne_nil {t : OText} (n : ℕ) (h : chargeOccs t ≠ []) :
    parse_aop_charge t n = ((chargeOccs t).map some).take (n + 1) := by
  unfold parse_aop_charge
  rw [if_neg]
  simp only [List.length_take, List.length_map]
  have := List.length_pos.mpr h
  omega

lemma parse_aop_spin_of_nil {t : OText} (n : ℕ) (h : spinOccs t = []) :
    parse_aop_spin t n = List.replicate n none := by
  simp [parse_aop_spin, h]

lemma parse_aop_spin_of_ne_nil {t : OText} (n : ℕ) (h : spinOccs t ≠ []) :
    parse_aop_spin t n = ((spinOccs t).map some).take (n + 1) := by
  unfold parse_aop_spin
  rw [if_neg]
  simp only [List.length_take, List.length_map]
  have := List.length_pos.mpr h
  omega

lemma parse_aop_gradient_of_nil {t : OText} (n : ℕ) (h : gradOccs t = []) :
    parse_aop_gradient t n = List.replicate n none := by
  simp [parse_aop_gradient, h]

lemma parse_aop_gradient_of_ne_nil {t : OText} (n : ℕ) (h : gradOccs t ≠ []) :
    parse_aop_gradient t n =
      ((gradOccs t).map fun rows =>
        some (rows.map (scaleRow (Hartree / Bohr * (-1))))).take (n + 1) := by
  unfold parse_aop_gradient
  rw [if_pos (List.length_pos.mpr h)]

lemma parse_aop_energy_length (t : OText) (n : ℕ) :
    (parse_aop_energy t n).length = min (n + 1) (energyOccs t).length := by
  simp [parse_aop_energy]

lemma parse_aop_dipole_length (t : OText) (n : ℕ) :
    (parse_aop_dipole t n).length = min (n + 1) (dipoleOccs t).length := by
  simp [parse_aop_dipole]

lemma parse_aop_charge_length_ge {t : OText} {n : ℕ}
    (h : chargeOccs t = [] ∨ n ≤ (chargeOccs t).length) :
    n ≤ (parse_aop_charge t n).length := by
  by_cases hnil : chargeOccs t = []
  · rw [parse_aop_charge_of_nil n hnil, List.length_replicate]
  · rcases h with h | h
    · exact absurd h hnil
    · rw [parse_aop_charge_of_ne_nil n hnil]
      simp only [List.length_take, List.length_map]
      omega

lemma parse_aop_spin_length_ge {t : OText} {n : ℕ}
    (h : spinOccs t = [] ∨ n ≤ (spinOccs t).length) :
    n ≤ (parse_aop_spin t n).length := by
  by_cases hnil : spinOccs t = []
  · rw [parse_aop_spin_of_nil n hnil, List.length_replicate]
  · rcases h with h | h
    · exact absurd h hnil
    · rw [parse_aop_spin_of_ne_nil n hnil]
      simp only [List.length_take, List.length_map]
      omega

lemma parse_aop_gradient_length_ge {t : OText} {n : ℕ}
    (h : gradOccs t = [] ∨ n ≤ (gradOccs t).length) :
    n ≤ (parse_aop_gradient t n).length := by
  by_cases hnil : gradOccs t = []
  · rw [parse_aop_gradient_of_nil n hnil, List.length_replicate]
  · rcases h with h | h
    · exact absurd h hnil
    · rw [parse_aop_gradient_of_ne_nil n hnil]
      simp only [List.length_take, List.length_map]
      omega

lemma imageAt_exists_ok {t : OText} {i : ℕ}
    (h1 : i < nimages t)
    (hE : i < (parse_aop_energy t (nimages t)).length)
    (hF : i < (parse_aop_gradient t (nimages t)).length)
    (hD : i < (parse_aop_dipole t (nimages t)).length)
    (hC : i < (parse_aop_charge t (nimages t)).length)
    (hM : i < (parse_aop_spin t (nimages t)).length) :
    ∃ img, imageAt t i = .ok img := by
  have h1' : i < (parse_aop_xyz t).1.length := by
    rw [parse_aop_xyz_fst_length, ← nimages_eq_geom_length]
    exact h1
  have h2' : i < (parse_aop_xyz t).2.length := by
    rw [parse_aop_xyz_snd_length, ← nimages_eq_geom_length]
    exact h1
  refine ⟨⟨(parse_aop_xyz t).1.get ⟨i, h1'⟩, (parse_aop_xyz t).2.get ⟨i, h2'⟩,
    (parse_aop_energy t (nimages t)).get ⟨i, hE⟩,
    (parse_aop_gradient t (nimages t)).get ⟨i, hF⟩,
    (parse_aop_dipole t (nimages t)).get ⟨i, hD⟩,
    (parse_aop_charge t (nimages t)).get ⟨i, hC⟩,
    (parse_aop_spin t (nimages t)).get ⟨i, hM⟩⟩, ?_⟩
  rw [imageAt_ok_iff]
  exact ⟨List.get?_eq_get h1', List.get?_eq_get h2', List.get?_eq_get hE,
    List.get?_eq_get hF, List.get?_eq_get hD, List.get?_eq_get hC,
    List.get?_eq_get hM⟩

lemma read_aop_eq_pyIndex {t : OText} {imgs : List Image} {i : ℤ}
    (h : iread_aop t = .ok imgs) : read_aop t i = pyIndex imgs i := by
  unfold read_aop
  rw [h]
  rfl

lemma dict_unique {kw : Dict} (hnodup : (kw.map Prod.fst).Nodup)
    {k : String} {v w : PyVal} (hv : (k, v) ∈ kw) (hw : (k, w) ∈ kw) : v = w := by
  induction kw with
  | nil => cases hv
  | cons p rest ih =>
    rw [List.map_cons, List.nodup_cons] at hnodup
    rcases List.mem_cons.mp hv with hv0 | hv1 <;>
      rcases List.mem_cons.mp hw with hw0 | hw1
    · have heq := hv0.trans hw0.symm
      injection heq with _ h2
    · exfalso
      have hk : k ∈ List.map Prod.fst rest := List.mem_map.mpr ⟨(k, w), hw1, rfl⟩
      have hp1 : p.1 = k := by rw [← hv0]
      exact hnodup.1 (hp1 ▸ hk)
    · exfalso
      have hk : k ∈ List.map Prod.fst rest := List.mem_map.mpr ⟨(k, v), hv1, rfl⟩
      have hp1 : p.1 = k := by rw [← hw0]
      exact hnodup.1 (hp1 ▸ hk)
    · exact ih hnodup.2 hv1 hw1

lemma write_dict_blocks_key_sublist (kw : Dict) :
    ((write_dict_blocks kw).map Prod.fst).Sublist (kw.map Prod.fst) := by
  induction kw with
  | nil => simp [write_dict_blocks]
  | cons p rest ih =>
    obtain ⟨kp, vp⟩ := p
    cases vp with
    | dict kvs =>
      simp only [write_dict_blocks, List.filterMap_cons]
      by_cases hemp : (kvs.filter fun q => isScalar q.2).isEmpty
      · rw [if_pos hemp]
        exact ih.cons kp
      · rw [if_neg hemp]
        simp only [List.map_cons]
        exact ih.cons₂ kp
    | str s => exact ih.cons kp
    | float q => exact ih.cons kp
    | bool b => exact ih.cons kp
    | int z => exact ih.cons kp
    | strlist l => exact ih.cons kp
    | pynone => exact ih.cons kp

lemma dropWhile_eq_self_of_all {p : List String → Bool} {l : InLines}
    (h : ∀ x ∈ l, p x = false) : l.dropWhile p = l := by
  cases l with
  | nil => rfl
  | cons x xs =>
    rw [List.dropWhile_cons,
      if_neg (by rw [h x (by simp)]; exact Bool.false_ne_true)]

lemma cleanBody_eq_self {b : InLines} (h : ∀ l ∈ b, l ≠ []) :
    cleanBody b = b := by
  unfold cleanBody
  have hfalse : ∀ x ∈ b, x.isEmpty = false := by
    intro x hx
    rcases hempty : x.isEmpty with _ | _
    · rfl
    · exact absurd (List.isEmpty_iff.mp hempty) (h x hx)
  rw [dropWhile_eq_self_of_all hfalse]
  rw [dropWhile_eq_self_of_all (fun x hx => hfalse x (List.mem_reverse.mp hx))]
  exact List.reverse_reverse b

lemma regionsAux_cons_none (hdr : List String → Bool) (l : List String)
    (rest : InLines) :
    regionsAux hdr (l :: rest) none =
      if hdr l then regionsAux hdr rest (some [])
      else regionsAux hdr rest none := rfl

lemma regionsAux_cons_some (hdr : List String → Bool) (l : List String)
    (rest : InLines) (acc : InLines) :
    regionsAux hdr (l :: rest) (some acc) =
      if isEndLine l then cleanBody acc.reverse :: regionsAux hdr rest none
      else regionsAux hdr rest (some (l :: acc)) := rfl

lemma regionsAux_skip {hdr : List String → Bool} {pre rest : InLines}
    (h : ∀ l ∈ pre, hdr l = false) :
    regionsAux hdr (pre ++ rest) none = regionsAux hdr rest none := by
  induction pre with
  | nil => rfl
  | cons l ls ih =>
    rw [List.cons_append, regionsAux_cons_none,
      if_neg (by rw [h l (by simp)]; exact Bool.false_ne_true)]
    exact ih fun x hx => h x (by simp [hx])

lemma regionsAux_capture {hdr : List String → Bool} {rest : InLines}
    {e : List String} (he : isEndLine e = true) :
    ∀ {body : InLines}, (∀ l ∈ body, isEndLine l = false) →
    ∀ acc, regionsAux hdr (body ++ e :: rest) (some acc) =
      cleanBody (acc.reverse ++ body) :: regionsAux hdr rest none := by
  intro body
  induction body with
  | nil =>
    intro _ acc
    rw [List.nil_append, regionsAux_cons_some, if_pos he, List.append_nil]
  | cons l ls ih =>
    intro hbody acc
    rw [List.cons_append, regionsAux_cons_some,
      if_neg (by rw [hbody l (by simp)]; exact Bool.false_ne_true)]
    rw [ih (fun x hx => hbody x (by simp [hx])) (l :: acc)]
    rw [List.reverse_cons, List.append_assoc]
    rfl

/-- One well-formed region: skip a header-free prefix, open at the
header, capture the body to the closing `end` line. -/
lemma findRegions_single {hdr : List String → Bool} {pre body : InLines}
    {hline : List String}
    (hpre : ∀ l ∈ pre, hdr l = false) (hhead : hdr hline = true)
    (hbody : ∀ l ∈ body, isEndLine l = false)
    (hclean : ∀ l ∈ body, l ≠ []) :
    findRegions hdr (pre ++ hline :: (body ++ [["end"]])) = [body] := by
  unfold findRegions
  rw [regionsAux_skip hpre]
  rw [regionsAux_cons_none, if_pos hhead]
  rw [regionsAux_capture (e := ["end"]) rfl hbody []]
  rw [List.reverse_nil, List.nil_append, cleanBody_eq_self hclean]
  rfl

lemma exceptMapM_map {α β γ} (f : β → Except String γ) (g : α → β) :
    ∀ xs : List α,
      exceptMapM f (xs.map g) = exceptMapM (fun a => f (g a)) xs := by
  intro xs
  induction xs with
  | nil => rfl
  | cons x xs ih =>
    show exceptMapM f (g x :: xs.map g) = _
    unfold exceptMapM
    rw [ih]

lemma exceptMapM_congr_ok {α β} {f : α → Except String β} {h : α → β} :
    ∀ {xs : List α}, (∀ a ∈ xs, f a = .ok (h a)) →
      exceptMapM f xs = .ok (xs.map h) := by
  intro xs
  induction xs with
  | nil => intro _; rfl
  | cons x xs ih =>
    intro hall
    show exceptMapM f (x :: xs) = _
    unfold exceptMapM
    rw [hall x (by simp), ih fun a ha => hall a (by simp [ha])]
    rfl

lemma parseAtomLine_render (s : String) (x y z : ℚ) :
    parseAtomLine [s, renderFix 8 x, renderFix 8 y, renderFix 8 z] =
      .ok (s, (qfix 8 x, qfix 8 y, qfix 8 z)) := by
  show (do
    let a ← parseFloatTok (renderFix 8 x)
    let b ← parseFloatTok (renderFix 8 y)
    let c ← parseFloatTok (renderFix 8 z)
    pure (s, (a, b, c)) : Except String (String × (ℚ × ℚ × ℚ))) = _
  rw [parseFloatTok_renderFix 8 x (by norm_num),
    parseFloatTok_renderFix 8 y (by norm_num),
    parseFloatTok_renderFix 8 z (by norm_num)]
  rfl

lemma containsTok_of_mem {t : InLines} {l : List String} {s pat : String}
    (hl : l ∈ t) (hs : s ∈ l) (h : strContains s pat = true) :
    containsTok t pat = true := by
  unfold containsTok
  rw [List.any_eq_true]
  exact ⟨l, hl, by rw [List.any_eq_true]; exact ⟨s, hs, h⟩⟩

lemma parse_xyz_of_single {t b : InLines} (h : findXyzRegions t = [b]) :
    parse_xyz t = ase_io_read_xyz (if b.isEmpty then 1 else b.length) b := by
  unfold parse_xyz
  rw [h]

/-! ## C1 — alignment of the non-geometry sequences -/

/-- C1, counterexample: in a transcript with one geometry section, one
energy and no dipole section, the dipole sequence has zero occurrences
and is *not* replaced by N = 1 absent elements — it stays empty — and
the downstream per-image indexing of `iread_aop` fails with an
IndexError, contrary to the claim. -/
theorem C1_counterexample :
    nimages Tc1 = 1 ∧ dipoleOccs Tc1 = [] ∧ parse_aop_dipole Tc1 1 = [] ∧
      iread_aop Tc1 = .error idxErrMsg :=
  ⟨rfl, rfl, rfl, rfl⟩

/-- C1 (amended): every non-geometry sequence is truncated to its first
N+1 occurrences, but the zero-occurrence replacement by N absent
elements happens only for charges, spin populations and gradients; a
dipole or energy sequence with zero occurrences stays empty (so
downstream per-image indexing can fail on those). -/
theorem C1_alignment_amended (t : OText) (n : ℕ) :
    (chargeOccs t ≠ [] →
      parse_aop_charge t n = ((chargeOccs t).map some).take (n + 1)) ∧
    (chargeOccs t = [] → parse_aop_charge t n = List.replicate n none) ∧
    (spinOccs t ≠ [] →
      parse_aop_spin t n = ((spinOccs t).map some).take (n + 1)) ∧
    (spinOccs t = [] → parse_aop_spin t n = List.replicate n none) ∧
    (gradOccs t ≠ [] →
      parse_aop_gradient t n = ((gradOccs t).map fun rows =>
        some (rows.map (scaleRow (Hartree / Bohr * (-1))))).take (n + 1)) ∧
    (gradOccs t = [] → parse_aop_gradient t n = List.replicate n none) ∧
    parse_aop_dipole t n = ((dipoleOccs t).map (scaleRow Bohr)).take (n + 1) ∧
    (dipoleOccs t = [] → parse_aop_dipole t n = []) ∧
    parse_aop_energy t n = ((energyOccs t).map (· * Hartree)).take (n + 1) ∧
    (energyOccs t = [] → parse_aop_energy t n = []) := by
  refine ⟨parse_aop_charge_of_ne_nil n, parse_aop_charge_of_nil n,
    parse_aop_spin_of_ne_nil n, parse_aop_spin_of_nil n,
    parse_aop_gradient_of_ne_nil n, parse_aop_gradient_of_nil n,
    rfl, ?_, rfl, ?_⟩
  · intro h
    simp [parse_aop_dipole, h]
  · intro h
    simp [parse_aop_energy, h]

/-- Witness for C1 (amended), at a transcript with one geometry section,
an energy and no charge section: the charge sequence is padded to one
absent entry, and at the fully populated transcript the charge sequence
is the truncated occurrence list. -/
theorem C1_alignment_amended_witness :
    parse_aop_charge Tc1 1 = List.replicate 1 none ∧
      parse_aop_charge Tw1 1 = (([ [1] ] : List (List ℚ)).map some).take 2 :=
  ⟨(C1_alignment_amended Tc1 1).2.1 rfl,
    (C1_alignment_amended Tw1 1).1 (by decide)⟩

/-! ## C4 — image count invariant -/

/-- C4, counterexample: a transcript with exactly one geometry banner
(and no other sections) makes the sequence parse raise an IndexError
instead of returning a one-image sequence. -/
theorem C4_counterexample :
    nimages Tc4 = 1 ∧ iread_aop Tc4 = .error idxErrMsg :=
  ⟨rfl, rfl⟩

/-- C4 (amended): for a transcript with exactly k geometry banners the
sequence parse returns exactly k images, in transcript order, *provided*
every auxiliary sequence can serve every image index: energies and
dipoles occur at least k times, and each of charges, spin and gradients
occurs either zero times (absent-padded) or at least k times.  (Without
that proviso the parse raises, as the counterexample shows.) -/
theorem C4_image_count_amended (t : OText) (k : ℕ) (hk : nimages t = k)
    (hE : k ≤ (energyOccs t).length) (hD : k ≤ (dipoleOccs t).length)
    (hC : chargeOccs t = [] ∨ k ≤ (chargeOccs t).length)
    (hS : spinOccs t = [] ∨ k ≤ (spinOccs t).length)
    (hG : gradOccs t = [] ∨ k ≤ (gradOccs t).length) :
    ∃ imgs, iread_aop t = .ok imgs ∧ imgs.length = k ∧
      ∀ i, i < k → ∃ img g, imgs.get? i = some img ∧
        (geomOccs t).get? i = some g ∧
        img.element = g.map Prod.fst ∧ img.position = g.map Prod.snd := by
  subst hk
  have hEx : ∀ i ∈ List.range (nimages t), ∃ img, imageAt t i = .ok img := by
    intro i hi
    rw [List.mem_range] at hi
    refine imageAt_exists_ok hi ?_ ?_ ?_ ?_ ?_
    · rw [parse_aop_energy_length]; omega
    · have := parse_aop_gradient_length_ge (t := t) (n := nimages t) hG
      omega
    · rw [parse_aop_dipole_length]; omega
    · have := parse_aop_charge_length_ge (t := t) (n := nimages t) hC
      omega
    · have := parse_aop_spin_length_ge (t := t) (n := nimages t) hS
      omega
  obtain ⟨imgs, himgs⟩ := exceptMapM_ok_of_forall hEx
  refine ⟨imgs, himgs, ?_, ?_⟩
  · exact (iread_aop_ok_spec himgs).1
  · intro i hi
    obtain ⟨img, hAt, hGet⟩ := (iread_aop_ok_spec himgs).2 i hi
    have hcomp := imageAt_ok_iff.mp hAt
    have hel := hcomp.1
    have hpos := hcomp.2.1
    have hilen : i < (geomOccs t).length := by
      rw [← nimages_eq_geom_length]; exact hi
    refine ⟨img, (geomOccs t).get ⟨i, hilen⟩, hGet, List.get?_eq_get hilen, ?_, ?_⟩
    · have := hel
      rw [parse_aop_xyz] at this
      simp only [List.get?_map] at this
      rw [List.get?_eq_get hilen] at this
      rw [Option.map_some'] at this
      injection this with hinj
      exact hinj.symm
    · have := hpos
      rw [parse_aop_xyz] at this
      simp only [List.get?_map] at this
      rw [List.get?_eq_get hilen] at this
      rw [Option.map_some'] at this
      injection this with hinj
      exact hinj.symm

/-- Witness for C4 (amended) at the fully populated one-image
transcript. -/
theorem C4_image_count_amended_witness :
    ∃ imgs, iread_aop Tw1 = .ok imgs ∧ imgs.length = 1 ∧
      ∀ i, i < 1 → ∃ img g, imgs.get? i = some img ∧
        (geomOccs Tw1).get? i = some g ∧
        img.element = g.map Prod.fst ∧ img.position = g.map Prod.snd :=
  C4_image_count_amended Tw1 1 rfl (by decide) (by decide)
    (Or.inr (by decide)) (Or.inr (by decide)) (Or.inr (by decide))

/-! ## C5 — single-image selection -/

/-- C5: whenever the sequence parse succeeds, `read_aop` at index −1 is
its last element, and any index outside the valid range (including every
index over an empty sequence) fails with the IndexError condition. -/
theorem C5_index_selection (t : OText) (imgs : List Image) (i : ℤ)
    (h : iread_aop t = .ok imgs) :
    (∀ a, imgs.getLast? = some a → read_aop t (-1) = .ok a) ∧
    (((imgs.length : ℤ) ≤ i ∨ i < -(imgs.length : ℤ)) →
      read_aop t i = .error idxErrMsg) := by
  constructor
  · intro a ha
    rw [read_aop_eq_pyIndex h]
    have hne : imgs ≠ [] := by
      intro hnil
      rw [hnil] at ha
      cases ha
    exact pyIndex_neg_one hne a ha
  · intro hout
    rw [read_aop_eq_pyIndex h]
    exact pyIndex_out_of_range hout

/-- Witness for C5 at a populated one-image transcript and at the empty
transcript (for the out-of-range / empty-sequence half). -/
theorem C5_index_selection_witness :
    read_aop Tw2 (-1) =
      .ok (Image.mk ["H"] [(0, 0, 0)] (1 * Hartree) none
        (1 * Bohr, 2 * Bohr, 3 * Bohr) none none) ∧
    read_aop Tw2 5 = .error idxErrMsg ∧
    read_aop ([] : OText) (-1) = .error idxErrMsg := by
  have h1 : iread_aop Tw2 =
      .ok [Image.mk ["H"] [(0, 0, 0)] (1 * Hartree) none
        (1 * Bohr, 2 * Bohr, 3 * Bohr) none none] := rfl
  have h0 : iread_aop ([] : OText) = .ok [] := rfl
  refine ⟨(C5_index_selection Tw2 _ (-1) h1).1 _ rfl, ?_, ?_⟩
  · exact (C5_index_selection Tw2 _ 5 h1).2 (by norm_num)
  · exact (C5_index_selection [] _ (-1) h0).2 (by norm_num)

/-! ## C3 — force/gradient asymmetry -/

/-- C3: the single-result path takes its forces from the *first*
`Cartesian Force` section, scaled by `Hartree/Bohr` and unnegated, while
the sequence path gives image `i` the `i`-th `Cartesian Gradient`
section scaled by `Hartree/Bohr` and negated; the single-result path
uses the force extractor, never the gradient extractor. -/
theorem C3_force_gradient_asymmetry (t : OText) :
    (∀ v rest, forceOccs t = v :: rest →
      parse_aop_force t = some (v.map (scaleRow (Hartree / Bohr)))) ∧
    (∀ r, read_results t = .ok r → r.forces = parse_aop_force t) ∧
    (∀ imgs i img, iread_aop t = .ok imgs → imgs.get? i = some img →
      gradOccs t ≠ [] →
      ∃ g, (gradOccs t).get? i = some g ∧
        img.forces = some (g.map (scaleRow (Hartree / Bohr * (-1))))) := by
  refine ⟨?_, ?_, ?_⟩
  · intro v rest hocc
    unfold parse_aop_force
    rw [hocc]
  · intro r hr
    unfold read_results at hr
    simp only [bind, Except.bind] at hr
    cases h1 : pyLast (parse_aop_charge t (parse_aop_xyz t).1.length) with
    | error e => rw [h1] at hr; cases hr
    | ok c =>
      rw [h1] at hr
      cases h2 : pyLast (parse_aop_spin t (parse_aop_xyz t).1.length) with
      | error e => rw [h2] at hr; cases hr
      | ok m =>
        rw [h2] at hr
        cases h3 : pyLast (parse_aop_dipole t (parse_aop_xyz t).1.length) with
        | error e => rw [h3] at hr; cases hr
        | ok d =>
          rw [h3] at hr
          cases h4 : pyLast (parse_aop_energy t (parse_aop_xyz t).1.length) with
          | error e => rw [h4] at hr; cases hr
          | ok e =>
            rw [h4] at hr
            simp only [pure, Except.pure, Except.ok.injEq] at hr
            rw [← hr]
  · intro imgs i img hok hget hgne
    have hi : i < imgs.length := by
      rcases List.get?_eq_some.mp hget with ⟨hlt, _⟩
      exact hlt
    have hspec := iread_aop_ok_spec hok
    have hin : i < nimages t := by rw [← hspec.1]; exact hi
    obtain ⟨img', hAt, hget'⟩ := hspec.2 i hin
    have himg : img' = img := by
      rw [hget'] at hget
      injection hget
    subst himg
    have hF := (imageAt_ok_iff.mp hAt).2.2.2.1
    rw [parse_aop_gradient_of_ne_nil _ hgne] at hF
    have hilt : i < (((gradOccs t).map fun rows =>
        some (rows.map (scaleRow (Hartree / Bohr * (-1))))).take
          (nimages t + 1)).length := by
      rcases List.get?_eq_some.mp hF with ⟨hlt, _⟩
      exact hlt
    rw [List.get?_take (by simp at hilt; omega)] at hF
    rw [List.get?_map] at hF
    cases hg : (gradOccs t).get? i with
    | none => rw [hg] at hF; cases hF
    | some g =>
      rw [hg] at hF
      rw [Option.map_some'] at hF
      injection hF with hF
      exact ⟨g, rfl, hF.symm⟩

/-- Witness for C3 at a transcript holding one geometry, an energy, a
dipole, one force section and one gradient section. -/
theorem C3_force_gradient_asymmetry_witness :
    parse_aop_force Tw1 = some [((1 : ℚ) * (Hartree / Bohr), 0 * (Hartree / Bohr),
      0 * (Hartree / Bohr))] ∧
    (∀ r, read_results Tw1 = .ok r → r.forces = parse_aop_force Tw1) ∧
    (∃ g, (gradOccs Tw1).get? 0 = some g ∧
      ∃ imgs img, iread_aop Tw1 = .ok imgs ∧ imgs.get? 0 = some img ∧
        img.forces = some (g.map (scaleRow (Hartree / Bohr * (-1))))) := by
  refine ⟨?_, ?_, ?_⟩
  · exact (C3_force_gradient_asymmetry Tw1).1 [(1, 0, 0)] [] rfl
  · exact (C3_force_gradient_asymmetry Tw1).2.1
  · have hok : iread_aop Tw1 = .ok [Image.mk ["H"] [(0, 0, 0)] (1 * Hartree)
        (some [(2 * (Hartree / Bohr * (-1)), 0 * (Hartree / Bohr * (-1)),
          0 * (Hartree / Bohr * (-1)))])
        (1 * Bohr, 2 * Bohr, 3 * Bohr) (some [1]) (some [1])] := rfl
    obtain ⟨g', hg', himg⟩ :=
      (C3_force_gradient_asymmetry Tw1).2.2 _ 0 _ hok rfl (by decide)
    exact ⟨g', hg', _, _, hok, rfl, himg⟩

/-! ## C8 — the value formatter and block omission -/

/-- C8: the formatter renders text as `" k v"`, reals as fixed-point
`" k v"`, booleans as `" k on"` / `" k off"`, integers as `" k d"`;
any other type yields no token (never an error), such keys are dropped,
and a block all of whose keys drop is omitted from the output
entirely. -/
theorem C8_value_formatter (k : String) (v : PyVal) (kw : Dict) :
    (∀ s, kv_fmt k (.str s) = some (" " ++ k ++ " " ++ s)) ∧
    (∀ q, kv_fmt k (.float q) = some (" " ++ k ++ " " ++ renderFix 6 q)) ∧
    kv_fmt k (.bool true) = some (" " ++ k ++ " on") ∧
    kv_fmt k (.bool false) = some (" " ++ k ++ " off") ∧
    (∀ z, kv_fmt k (.int z) = some (" " ++ k ++ " " ++ intStr z)) ∧
    (isScalar v = false → kv_fmt k v = none) ∧
    ((kw.map Prod.fst).Nodup → ∀ k0 kvs, (k0, PyVal.dict kvs) ∈ kw →
      (∀ p ∈ kvs, isScalar p.2 = false) →
      k0 ∉ (write_dict_blocks kw).map Prod.fst) := by
  refine ⟨fun s => rfl, fun q => rfl, ?_, ?_, fun z => rfl, ?_, ?_⟩
  · show some ((" " ++ k ++ " ") ++ "on") = some ((" " ++ k) ++ " on")
    have hx : (" " ++ k ++ " ") ++ "on" = (" " ++ k) ++ " on" := by
      rw [String.append_assoc]
      rfl
    rw [hx]
  · show some ((" " ++ k ++ " ") ++ "off") = some ((" " ++ k) ++ " off")
    have hx : (" " ++ k ++ " ") ++ "off" = (" " ++ k) ++ " off" := by
      rw [String.append_assoc]
      rfl
    rw [hx]
  · intro h
    cases v <;> first | rfl | (exfalso; cases h)
  · intro hnodup k0 kvs hmem hdrop hin
    obtain ⟨b, hb, hbfst⟩ := List.mem_map.mp hin
    obtain ⟨p, hp, hfp⟩ := List.mem_filterMap.mp hb
    obtain ⟨kp, vp⟩ := p
    cases vp with
    | dict kvs' =>
      simp only [write_dict_blocks] at hfp
      by_cases hemp : (kvs'.filter fun q => isScalar q.2).isEmpty
      · rw [if_pos hemp] at hfp
        cases hfp
      · rw [if_neg hemp] at hfp
        have hkp : kp = k0 := by
          cases hfp
          exact hbfst
        subst hkp
        have : PyVal.dict kvs' = PyVal.dict kvs := dict_unique hnodup hp hmem
        injection this with hkvs
        subst hkvs
        apply hemp
        rw [List.isEmpty_iff, List.filter_eq_nil]
        intro q hq
        rw [hdrop q hq]
        exact Bool.false_ne_true
    | str s => cases hfp
    | float q => cases hfp
    | bool b => cases hfp
    | int z => cases hfp
    | strlist l => cases hfp
    | pynone => cases hfp

/-- Witness for C8 at concrete formatter inputs and a block whose only
key holds a non-scalar value. -/
theorem C8_value_formatter_witness :
    kv_fmt "scf" (.bool true) = some (" scf on") ∧
    kv_fmt "grid" (.int 5) = some (" grid " ++ intStr 5) ∧
    kv_fmt "bad" (.dict []) = none ∧
    "drop" ∉ (write_dict_blocks [("drop", PyVal.dict [("x", .pynone)])]).map
      Prod.fst := by
  refine ⟨?_, ?_, ?_, ?_⟩
  · have h := (C8_value_formatter "scf" PyVal.pynone []).2.2.1
    rw [h]
    rfl
  · exact (C8_value_formatter "grid" PyVal.pynone []).2.2.2.2.1 5
  · exact (C8_value_formatter "bad" (PyVal.dict []) []).2.2.2.2.2.1 rfl
  · exact (C8_value_formatter "x" PyVal.pynone
      [("drop", PyVal.dict [("x", .pynone)])]).2.2.2.2.2.2
      (by decide) "drop" [("x", .pynone)] (by simp) (by intro p hp; simp at hp; rw [hp]; rfl)

/-! ## C9 — writer determinism and key order -/

/-- C9: the writer is a function of its arguments — two calls with equal
arguments give byte-identical text — and the emitted block order and
in-block key order follow the caller mapping's insertion order. -/
theorem C9_writer_determinism (S S' : Structure) (P P' : Dict)
    (h1 : S = S') (h2 : P = P') :
    write_aip S P = write_aip S' P' ∧
    ((write_dict_blocks P).map Prod.fst).Sublist (P.map Prod.fst) ∧
    ∀ b ∈ write_dict_blocks P, ∃ kvs, (b.1, PyVal.dict kvs) ∈ P ∧
      (b.2.map Prod.fst).Sublist (kvs.map Prod.fst) := by
  refine ⟨by rw [h1, h2], write_dict_blocks_key_sublist P, ?_⟩
  intro b hb
  obtain ⟨p, hp, hfp⟩ := List.mem_filterMap.mp hb
  obtain ⟨kp, vp⟩ := p
  cases vp with
  | dict kvs =>
    simp only [write_dict_blocks] at hfp
    by_cases hemp : (kvs.filter fun q => isScalar q.2).isEmpty
    · rw [if_pos hemp] at hfp
      cases hfp
    · rw [if_neg hemp] at hfp
      refine ⟨kvs, ?_, ?_⟩
      · cases hfp
        exact hp
      · cases hfp
        exact (List.filter_sublist _).map Prod.fst
  | str s => cases hfp
  | float q => cases hfp
  | bool b' => cases hfp
  | int z => cases hfp
  | strlist l => cases hfp
  | pynone => cases hfp

/-- Witness for C9 at a concrete structure and parameter set. -/
theorem C9_writer_determinism_witness :
    write_aip (Structure.mk ["H"] [(0, 0, 0)] [0] [0])
        [("method", PyVal.dict [("eda", .str "mayer")])] =
      write_aip (Structure.mk ["H"] [(0, 0, 0)] [0] [0])
        [("method", PyVal.dict [("eda", .str "mayer")])] ∧
    ((write_dict_blocks [("method", PyVal.dict [("eda", .str "mayer")])]).map
      Prod.fst).Sublist ["method"] :=
  ⟨(C9_writer_determinism _ _ _ _ rfl rfl).1,
    (C9_writer_determinism (Structure.mk ["H"] [(0, 0, 0)] [0] [0]) _
      [("method", PyVal.dict [("eda", .str "mayer")])] _ rfl rfl).2.1⟩

/-! ## C7 — no observable mutation of the caller's parameters -/

/-- C7: running the writer against a heap of parameter dicts leaves every
pre-existing dict unchanged (the pops hit only the freshly allocated
private copy), and the text produced is that of the pure writer on the
caller's dict. -/
theorem C7_no_caller_mutation (h : List Dict) (a : ℕ) (S : Structure)
    (i : ℕ) (hi : i < h.length) :
    (write_aip_heap h a S).1.get? i = h.get? i ∧
    (write_aip_heap h a S).2 = write_aip S ((h.get? a).getD []) := by
  unfold write_aip_heap
  constructor
  · rw [List.get?_set_ne _ _ (by omega)]
    exact List.get?_append hi
  · unfold write_aip write_aip_lines
    rfl

/-- Witness for C7 at a one-dict heap. -/
theorem C7_no_caller_mutation_witness :
    (write_aip_heap [[("npara", PyVal.int 4)]] 0
        (Structure.mk ["H"] [(0, 0, 0)] [0] [0])).1.get? 0 =
      some [("npara", PyVal.int 4)] ∧
    (write_aip_heap [[("npara", PyVal.int 4)]] 0
        (Structure.mk ["H"] [(0, 0, 0)] [0] [0])).2 =
      write_aip (Structure.mk ["H"] [(0, 0, 0)] [0] [0])
        [("npara", PyVal.int 4)] := by
  have h := C7_no_caller_mutation [[("npara", PyVal.int 4)]] 0
    (Structure.mk ["H"] [(0, 0, 0)] [0] [0]) 0 (by norm_num)
  exact ⟨h.1.trans rfl, h.2.trans rfl⟩

/-! ## C2 — silent undefined result in the input reader -/

/-- C2, counterexample: a transcript containing `>xyz` whose region is
malformed (zero regex matches) makes the reader raise (the xyz reader
gets an empty stream), not return a silent `None`. -/
theorem C2_counterexample :
    containsTok Tc2 ">xyz" = true ∧ findXyzRegions Tc2 = [] ∧
      read_aip Tc2 = .error noImageErrMsg :=
  ⟨rfl, rfl, rfl⟩

/-- C2 (amended): the reader returns a silent `None` only when *neither*
marker substring occurs; when `>xyz` occurs but the well-formed region
count is not exactly one, it propagates an error from the xyz reader
instead (it never returns `None` on that path). -/
theorem C2_reader_silent_undefined_amended (t : InLines) :
    (containsTok t ">xyz" = false → containsTok t ">zmat" = false →
      read_aip t = .ok none) ∧
    (containsTok t ">xyz" = true → (findXyzRegions t).length ≠ 1 →
      read_aip t = .error noImageErrMsg) := by
  constructor
  · intro h1 h2
    unfold read_aip
    rw [h1, h2]
    rfl
  · intro h1 hlen
    unfold read_aip
    rw [h1]
    simp only [if_true]
    unfold parse_xyz
    cases hr : findXyzRegions t with
    | nil => rfl
    | cons b rest =>
      cases rest with
      | nil =>
        exfalso
        apply hlen
        rw [hr]
        rfl
      | cons b2 rest2 => rfl

/-- Witness for C2 (amended): a marker-free transcript reads as `None`,
and the malformed-region transcript errors. -/
theorem C2_reader_silent_undefined_amended_witness :
    read_aip [["!", "hf"], ["%", "npara", "4"]] = .ok none ∧
    read_aip Tc2 = .error noImageErrMsg :=
  ⟨(C2_reader_silent_undefined_amended [["!", "hf"], ["%", "npara", "4"]]).1
    rfl rfl,
    (C2_reader_silent_undefined_amended Tc2).2 rfl (by decide)⟩

/-! ## C10 — dispatch on the literal `>xyz` substring -/

/-- C10: whenever the substring `>xyz` occurs anywhere in the transcript
— well-formed region or not — the reader takes the Cartesian path, and
its result is exactly the `parse_xyz` result; the `>zmat` form is never
consulted. -/
theorem C10_substring_dispatch (t : InLines)
    (h : containsTok t ">xyz" = true) :
    read_aip t = (parse_xyz t).map some := by
  unfold read_aip
  rw [h]
  rfl

/-- Witness for C10: on `Tc10` the `>xyz` occurrence is inside a junk
token, a valid `>zmat` region exists, yet the reader takes (and fails
on) the Cartesian path. -/
theorem C10_substring_dispatch_witness :
    read_aip Tc10 = (parse_xyz Tc10).map some ∧
    findRegions isZmatHeaderLine Tc10 = [[["C"]]] ∧
    read_aip Tc10 = .error noImageErrMsg :=
  ⟨C10_substring_dispatch Tc10 rfl, rfl, rfl⟩

/-! ## C6 — write/read round-trip -/

/-- C6 (amended): reading back a written transcript recovers the same
element sequence (hence the same atom count) and positions within 1e-6
componentwise — *provided* the structure is non-empty with symbols that
do not begin with `end`, the rendered charge and multiplicity tokens are
digit runs (a negative charge breaks the region pattern, see the
counterexample), and no parameter-derived line before the geometry block
matches the region header pattern. -/
theorem C6_roundtrip_amended (S : Structure) (P : Dict) (pre : InLines)
    (cs ms : String) (L : InLines)
    (hw : write_aip_lines S P = .ok L)
    (hL : L = pre ++ ([">xyz", cs, ms] :: (atomLines S ++ [["end"]])))
    (hlen : S.symbols.length = S.positions.length)
    (hne : S.symbols ≠ [])
    (hsymEnd : ∀ s ∈ S.symbols, strStartsWith s "end" = false)
    (hpre : ∀ l ∈ pre, isXyzHeaderLine l = false)
    (hcs : tokenAllDigits cs = true) (hms : tokenAllDigits ms = true) :
    ∃ S', roundTrip S P = .ok (some S') ∧
      S'.symbols = S.symbols ∧
      S'.positions.length = S.positions.length ∧
      ∀ i p q, S.positions.get? i = some p → S'.positions.get? i = some q →
        |q.1 - p.1| ≤ 1/1000000 ∧ |q.2.1 - p.2.1| ≤ 1/1000000 ∧
          |q.2.2 - p.2.2| ≤ 1/1000000 := by
  have hzlen : (S.symbols.zip S.positions).length = S.symbols.length := by
    rw [List.length_zip, hlen, min_self]
  have hbodylen : (atomLines S).length = S.symbols.length := by
    unfold atomLines
    rw [List.length_map, hzlen]
  have hbody_ne : atomLines S ≠ [] := by
    intro h0
    have h1 : (atomLines S).length = 0 := by rw [h0]; rfl
    rw [hbodylen] at h1
    exact hne (List.length_eq_zero.mp h1)
  have hbody_lines_ne : ∀ l ∈ atomLines S, l ≠ [] := by
    intro l hl
    obtain ⟨p, _, rfl⟩ := List.mem_map.mp hl
    simp
  have hbody_noend : ∀ l ∈ atomLines S, isEndLine l = false := by
    intro l hl
    obtain ⟨⟨a, b⟩, hp, rfl⟩ := List.mem_map.mp hl
    exact hsymEnd a (List.of_mem_zip hp).1
  have hhead : isXyzHeaderLine [">xyz", cs, ms] = true := by
    show (strEndsWith ">xyz" ">xyz" && tokenAllDigits cs && tokenAllDigits ms)
      = true
    rw [hcs, hms]
    rfl
  have hregions : findXyzRegions L = [atomLines S] := by
    rw [hL]
    exact findRegions_single hpre hhead hbody_noend hbody_lines_ne
  have hcontains : containsTok L ">xyz" = true := by
    rw [hL]
    exact containsTok_of_mem (l := [">xyz", cs, ms]) (s := ">xyz")
      (by simp) (by simp) rfl
  -- the parsed structure
  set h : String × (ℚ × ℚ × ℚ) → String × (ℚ × ℚ × ℚ) :=
    fun p => (p.1, (qfix 8 p.2.1, qfix 8 p.2.2.1, qfix 8 p.2.2.2)) with hh
  have hparse : parse_xyz L =
      .ok ⟨((S.symbols.zip S.positions).map h).map Prod.fst,
        ((S.symbols.zip S.positions).map h).map Prod.snd,
        List.replicate ((S.symbols.zip S.positions).map h).length 0,
        List.replicate ((S.symbols.zip S.positions).map h).length 0⟩ := by
    rw [parse_xyz_of_single hregions]
    rw [if_neg (by
      rcases hemp : (atomLines S).isEmpty with _ | _
      · exact Bool.false_ne_true
      · exact absurd (List.isEmpty_iff.mp hemp) hbody_ne)]
    unfold ase_io_read_xyz
    rw [if_neg (by omega)]
    rw [List.take_length]
    have hmapM : exceptMapM parseAtomLine (atomLines S) =
        .ok ((S.symbols.zip S.positions).map h) := by
      unfold atomLines
      rw [exceptMapM_map]
      exact exceptMapM_congr_ok fun p _ => parseAtomLine_render p.1 _ _ _
    rw [hmapM]
  refine ⟨⟨((S.symbols.zip S.positions).map h).map Prod.fst,
    ((S.symbols.zip S.positions).map h).map Prod.snd,
    List.replicate ((S.symbols.zip S.positions).map h).length 0,
    List.replicate ((S.symbols.zip S.positions).map h).length 0⟩, ?_, ?_, ?_, ?_⟩
  · show roundTrip S P = _
    unfold roundTrip
    rw [hw]
    show read_aip L = _
    unfold read_aip
    rw [hcontains]
    simp only [if_true]
    rw [hparse]
    rfl
  · show ((S.symbols.zip S.positions).map h).map Prod.fst = S.symbols
    rw [List.map_map]
    have : (Prod.fst ∘ h) = (Prod.fst :
        String × (ℚ × ℚ × ℚ) → String) := rfl
    rw [this]
    exact List.map_fst_zip S.symbols S.positions (le_of_eq hlen)
  · show (((S.symbols.zip S.positions).map h).map Prod.snd).length =
      S.positions.length
    rw [List.length_map, List.length_map, hzlen, hlen]
  · intro i p q hp hq
    show _ ∧ _ ∧ _
    have hi : i < S.symbols.length := by
      rw [hlen]
      rcases List.get?_eq_some.mp hp with ⟨hlt, _⟩
      exact hlt
    have hs : S.symbols.get? i = some (S.symbols.get ⟨i, hi⟩) :=
      List.get?_eq_get hi
    have hzip : (S.symbols.zip S.positions).get? i =
        some (S.symbols.get ⟨i, hi⟩, p) :=
      (List.get?_zip_eq_some _ _ _ _).mpr ⟨hs, hp⟩
    have hq' : (((S.symbols.zip S.positions).map h).map Prod.snd).get? i =
        some (qfix 8 p.1, qfix 8 p.2.1, qfix 8 p.2.2) := by
      rw [List.get?_map, List.get?_map, hzip]
      rfl
    have hqq : q = (qfix 8 p.1, qfix 8 p.2.1, qfix 8 p.2.2) := by
      rw [hq] at hq'
      injection hq'
    subst hqq
    have hb : (1 : ℚ) / (2 * 10 ^ 8) ≤ 1/1000000 := by norm_num
    exact ⟨le_trans (abs_qfix_sub_le 8 p.1) hb,
      le_trans (abs_qfix_sub_le 8 p.2.1) hb,
      le_trans (abs_qfix_sub_le 8 p.2.2) hb⟩

/-- C6, counterexample: with a charge of −1 the writer emits
`>xyz -1 1`, whose `-1` fails the region pattern's `\d+`, so reading the
written transcript back raises instead of recovering the structure. -/
theorem C6_counterexample :
    write_aip_lines Sc6 Pc6 = .ok [["!", "pbe0", "def2-svp"],
      [">xyz", "-1", "1"],
      ["H", renderFix 8 0, renderFix 8 0, renderFix 8 0], ["end"]] ∧
    findXyzRegions [["!", "pbe0", "def2-svp"], [">xyz", "-1", "1"],
      ["H", "0.00000000", "0.00000000", "0.00000000"], ["end"]] = [] ∧
    roundTrip Sc6 Pc6 = .error noImageErrMsg := by
  have hrf : renderFix 8 (0 : ℚ) = "0.00000000" := by
    norm_num [renderFix, renderFixChars]
    decide
  refine ⟨rfl, rfl, ?_⟩
  have hw : write_aip_lines Sc6 Pc6 = .ok [["!", "pbe0", "def2-svp"],
      [">xyz", "-1", "1"],
      ["H", renderFix 8 0, renderFix 8 0, renderFix 8 0], ["end"]] := rfl
  unfold roundTrip
  rw [hw, hrf]
  rfl

/-- Witness for C6 (amended) at the one-atom structure with charge 0. -/
theorem C6_roundtrip_amended_witness :
    ∃ S', roundTrip Sc6 Pw6 = .ok (some S') ∧
      S'.symbols = Sc6.symbols ∧
      S'.positions.length = Sc6.positions.length ∧
      ∀ i p q, Sc6.positions.get? i = some p → S'.positions.get? i = some q →
        |q.1 - p.1| ≤ 1/1000000 ∧ |q.2.1 - p.2.1| ≤ 1/1000000 ∧
          |q.2.2 - p.2.2| ≤ 1/1000000 :=
  C6_roundtrip_amended Sc6 Pw6 [["!", "pbe0", "def2-svp"]] (intStr 0)
    (intStr 1) _ rfl rfl rfl (by decide) (by decide) (by decide)
    (by decide) (by decide)

end PyAmesp
